import Mathlib

/-!
Shallow embedding of Silo's Windows multi-node array allocator
(`source/memory-windows.cpp`), together with theorems about its
rounding, padding, probing, commit and rollback behaviour.

The OS and topology services (`GetSystemInfo`, `VirtualAllocExNuma`,
`topoGetNUMANodeOSIndex`) are external to the translation unit; they are
modelled as an environment of pure oracles (`SiloEnv`).  Addresses and
sizes are modelled as `Nat`.  Every backend interaction of
`siloMultinodeArrayAlloc` is recorded in an event trace so that claims
about ordering, rollback and registry submission can be stated.
-/

namespace Silo

/-- Caller-supplied description of one piece of a multi-node array
(`SSiloMemorySpec` from `silo.h`): a byte count and a logical NUMA node. -/
structure SSiloMemorySpec where
  size : Nat
  numaNode : Nat
deriving DecidableEq

/-- Internal record of one committed piece (`SSiloAllocationSpec`):
base address and byte length. -/
structure SSiloAllocationSpec where
  ptr : Nat
  size : Nat
deriving DecidableEq

/-- Environment of external services used by `memory-windows.cpp`:
the allocation unit reported by `siloWindowsGetAllocationUnitSize(false)`
(a pure OS constant for the duration of the call), the topology service
`topoGetNUMANodeOSIndex` (negative result means the logical node does not
resolve), and `VirtualAllocExNuma` modelled as a pure oracle
`virtualAlloc startPtr size numaNode shouldCommit`, returning the base
address of the obtained region or `none` on failure. -/
structure SiloEnv where
  allocationUnitSize : Nat
  topoGetNUMANodeOSIndex : Nat → Int
  virtualAlloc : Option Nat → Nat → Nat → Bool → Option Nat

/-- `siloWindowsMemoryAllocAtNUMA` (memory-windows.cpp lines 35-38):
a direct wrapper around `VirtualAllocExNuma`; `startPtr = none` lets the
OS choose the address, `shouldCommit = false` only reserves. -/
def siloWindowsMemoryAllocAtNUMA (env : SiloEnv) (size : Nat) (numaNode : Nat)
    (startPtr : Option Nat) (shouldCommit : Bool) : Option Nat :=
  env.virtualAlloc startPtr size numaNode shouldCommit

/-- `siloWindowsRoundRequestedAllocationSize` (lines 71-82), with the
allocation unit size passed explicitly instead of being re-read from the
OS: divide by the unit; round up when the remainder is at least half the
unit (C integer division), else round down. -/
def siloWindowsRoundRequestedAllocationSize (allocationUnitSize unroundedSize : Nat) : Nat :=
  let quotient := unroundedSize / allocationUnitSize
  let remainder := unroundedSize % allocationUnitSize
  if allocationUnitSize / 2 ≤ remainder then
    allocationUnitSize * (quotient + 1)
  else
    allocationUnitSize * quotient

/-- One recorded backend / registry interaction of the allocator. -/
inductive SiloEvent where
  | alloc (startPtr : Option Nat) (size numaNode : Nat) (shouldCommit : Bool)
      (result : Option Nat)
  | free (ptr size : Nat)
  | submit (count : Nat) (specs : List SSiloAllocationSpec)
deriving DecidableEq

/-- An event is a commit attempt: a `VirtualAllocExNuma` call with
`MEM_COMMIT` set (the per-piece calls; the probe reservation is not one). -/
def SiloEvent.isCommitAttempt : SiloEvent → Bool
  | .alloc _ _ _ true _ => true
  | _ => false

/-- An event is a failed commit attempt. -/
def SiloEvent.isFailedCommit : SiloEvent → Bool
  | .alloc _ _ _ true none => true
  | _ => false

/-- An event is a submission to the pointer-map registry. -/
def SiloEvent.isSubmitEvent : SiloEvent → Bool
  | .submit _ _ => true
  | _ => false

/-- An event is a `siloMemoryFreeNUMA` release. -/
def SiloEvent.isFreeEvent : SiloEvent → Bool
  | .free _ _ => true
  | _ => false

/-- Holds of a trace in which no commit attempt occurs after a failed
commit attempt ("if any commit fails, no further pieces are attempted"). -/
def noCommitAfterFail : List SiloEvent → Bool
  | [] => true
  | e :: rest =>
      (if e.isFailedCommit then rest.all (fun x => !x.isCommitAttempt) else true)
        && noCommitAfterFail rest

/-- The logical node of a request fails to resolve:
`0 > topoGetNUMANodeOSIndex(spec[i].numaNode)` (line 113). -/
def invalidNode (env : SiloEnv) (s : SSiloMemorySpec) : Bool :=
  decide (env.topoGetNUMANodeOSIndex s.numaNode < 0)

/-- The in-place rounding of one request entry performed by the
validation loop (line 117): the size is replaced by its rounded value,
the node is untouched. -/
def roundSpecEntry (env : SiloEnv) (s : SSiloMemorySpec) : SSiloMemorySpec :=
  { s with size := siloWindowsRoundRequestedAllocationSize env.allocationUnitSize s.size }

/-- Result of the validation / rounding loop (lines 108-119): the array
contents after the in-place mutations, the two running totals, and
whether the loop ran to completion (`ok = false`: early `return NULL`
on an unresolvable node). -/
structure ValidateResult where
  arr : List SSiloMemorySpec
  totalRequestedBytes : Nat
  totalActualBytes : Nat
  ok : Bool
deriving DecidableEq

/-- The validation loop (lines 111-119): checks each node index, sums
the original sizes into `totalRequestedBytes`, rounds each size in
place, and sums the rounded sizes into `totalActualBytes`.  `done` is
the already-processed (mutated) prefix of the caller's array. -/
def validateLoop (env : SiloEnv) :
    List SSiloMemorySpec → List SSiloMemorySpec → Nat → Nat → ValidateResult
  | [], done, tr, ta => ⟨done, tr, ta, true⟩
  | s :: rest, done, tr, ta =>
      if env.topoGetNUMANodeOSIndex s.numaNode < 0 then
        ⟨done ++ s :: rest, tr, ta, false⟩
      else
        let rounded := siloWindowsRoundRequestedAllocationSize env.allocationUnitSize s.size
        validateLoop env rest (done ++ [{ s with size := rounded }]) (tr + s.size) (ta + rounded)

/-- The coverage-padding loop (lines 126-130) with an explicit fuel.
Each iteration requires `totalActual < totalRequested` and adds one
allocation unit, so when the unit is positive, `totalRequested -
totalActual` iterations always suffice; `padLoop` supplies exactly that
fuel.  (When the unit is zero the C loop would never terminate; the fuel
makes that impossible case return instead of diverging.)  Returns the
final `totalActualBytes` and the number of iterations executed. -/
def padLoopFuel : Nat → Nat → Nat → Nat → Nat × Nat
  | 0, _, _, totalActual => (totalActual, 0)
  | fuel + 1, unit, totalRequested, totalActual =>
      if totalActual < totalRequested then
        let rest := padLoopFuel fuel unit totalRequested (totalActual + unit)
        (rest.1, rest.2 + 1)
      else
        (totalActual, 0)

/-- The coverage-padding loop of `siloMultinodeArrayAlloc`:
`while (totalActualBytes < totalRequestedBytes) totalActualBytes += allocationUnitSize`.
Returns the final total and the iteration count. -/
def padLoop (unit totalRequested totalActual : Nat) : Nat × Nat :=
  padLoopFuel (totalRequested - totalActual) unit totalRequested totalActual

/-- The piece records produced by a fully successful commit loop:
consecutive addresses starting at `base`, one record per request, each
of the request's (rounded) size. -/
def contigSpecs (base : Nat) : List SSiloMemorySpec → List SSiloAllocationSpec
  | [] => []
  | s :: rest => ⟨base, s.size⟩ :: contigSpecs (base + s.size) rest

/-- Adjacent recorded pieces are contiguous:
`piece[i].ptr + piece[i].size = piece[i+1].ptr`. -/
def contiguousPieces : List SSiloAllocationSpec → Bool
  | [] => true
  | [_] => true
  | a :: b :: rest => (a.ptr + a.size == b.ptr) && contiguousPieces (b :: rest)

/-- Result of the per-piece commit loop (lines 144-162): the recorded
`SSiloAllocationSpec`s for the pieces that committed, the trace of
commit attempts, and whether every piece committed. -/
structure CommitResult where
  specs : List SSiloAllocationSpec
  events : List SiloEvent
  ok : Bool
deriving DecidableEq

/-- The per-piece commit loop (lines 144-162): for each request in
order, reserve-and-commit its (rounded) size at the running address on
its resolved OS node; on failure stop immediately, recording nothing for
the failed piece. -/
def commitLoop (env : SiloEnv) (base : Nat) : List SSiloMemorySpec → CommitResult
  | [] => ⟨[], [], true⟩
  | s :: rest =>
      let osNode := (env.topoGetNUMANodeOSIndex s.numaNode).toNat
      match siloWindowsMemoryAllocAtNUMA env s.size osNode (some base) true with
      | none => ⟨[], [.alloc (some base) s.size osNode true none], false⟩
      | some r =>
          let tail := commitLoop env (base + s.size) rest
          ⟨⟨base, s.size⟩ :: tail.specs,
            .alloc (some base) s.size osNode true (some r) :: tail.events,
            tail.ok⟩

/-- Observable outcome of one `siloMultinodeArrayAlloc` call: the
returned pointer (`none` = `NULL`), the caller's request array after the
call, the number of writes the padding loop made to `spec[count]` (the
slot one past the end of the caller's array), the final `size` value of
that out-of-bounds slot (its pre-call content is an input), and the
trace of backend / registry interactions. -/
structure AllocResult where
  ret : Option Nat
  finalSpec : List SSiloMemorySpec
  writesPastEnd : Nat
  pastEnd : Nat
  events : List SiloEvent
deriving DecidableEq

/-- `siloMultinodeArrayAlloc` (lines 102-182).  `spec` is the caller's
array (`count` is its length); `pastEnd` is the pre-call content of the
`size` field of the memory slot at index `count`, one past the end of
the array, which the padding loop at line 129 (`spec[count].size +=
allocationUnitSize`) reads and writes. -/
def siloMultinodeArrayAlloc (env : SiloEnv) (spec : List SSiloMemorySpec)
    (pastEnd : Nat) : AllocResult :=
  let v := validateLoop env spec [] 0 0
  if v.ok = false then
    { ret := none, finalSpec := v.arr, writesPastEnd := 0, pastEnd := pastEnd, events := [] }
  else if v.totalActualBytes = 0 then
    { ret := none, finalSpec := v.arr, writesPastEnd := 0, pastEnd := pastEnd, events := [] }
  else
    let unit := env.allocationUnitSize
    let pad := padLoop unit v.totalRequestedBytes v.totalActualBytes
    let pastEndFinal := pastEnd + pad.2 * unit
    match siloWindowsMemoryAllocAtNUMA env pad.1 0 none false with
    | none =>
        { ret := none, finalSpec := v.arr, writesPastEnd := pad.2, pastEnd := pastEndFinal,
          events := [.alloc none pad.1 0 false none] }
    | some base =>
        let c := commitLoop env base v.arr
        let probeEvents : List SiloEvent :=
          [.alloc none pad.1 0 false (some base), .free base pad.1]
        if c.ok then
          { ret := c.specs.head?.map SSiloAllocationSpec.ptr, finalSpec := v.arr,
            writesPastEnd := pad.2, pastEnd := pastEndFinal,
            events := probeEvents ++ c.events ++ [.submit spec.length c.specs] }
        else
          { ret := none, finalSpec := v.arr,
            writesPastEnd := pad.2, pastEnd := pastEndFinal,
            events := probeEvents ++ c.events
              ++ c.specs.map (fun a => SiloEvent.free a.ptr a.size) }

/-- The padded total length handed to the probe reservation. -/
def probeTotal (env : SiloEnv) (spec : List SSiloMemorySpec) : Nat :=
  (padLoop env.allocationUnitSize
    (validateLoop env spec [] 0 0).totalRequestedBytes
    (validateLoop env spec [] 0 0).totalActualBytes).1

/-- The call reaches the probe-reservation step: validation ran to
completion and the rounded total is non-zero. -/
def reachesProbe (env : SiloEnv) (spec : List SSiloMemorySpec) : Bool :=
  (validateLoop env spec [] 0 0).ok
    && !((validateLoop env spec [] 0 0).totalActualBytes == 0)

/-- The spec's characterisation of the rounding result (§4.1 / §8):
`r` is a multiple of `u`, no multiple of `u` is strictly nearer to `s`,
and any equally near multiple lies at or below `r` (ties round up). -/
def IsNearestMultipleTiesUp (u s r : Nat) : Prop :=
  u ∣ r ∧ (∀ k : Nat, Nat.dist r s ≤ Nat.dist (u * k) s)
    ∧ (∀ k : Nat, Nat.dist (u * k) s = Nat.dist r s → u * k ≤ r)

/-- Environment for the spec §8 worked scenario: allocation unit 4096,
every logical node resolves (to itself), and every backend call
succeeds; OS-chosen addresses come out at 65536, placed calls succeed at
the requested address. -/
def goodEnv : SiloEnv where
  allocationUnitSize := 4096
  topoGetNUMANodeOSIndex := fun n => (n : Int)
  virtualAlloc := fun startPtr _ _ _ =>
    match startPtr with
    | none => some 65536
    | some a => some a

/-- The spec §8 worked scenario request:
pieces `[(nodeA, 10000), (nodeB, 5000)]`. -/
def scenarioSpec : List SSiloMemorySpec := [⟨10000, 0⟩, ⟨5000, 1⟩]

/-- Environment in which the probe reservation succeeds but only the
very first placed commit succeeds: the second piece's commit fails. -/
def secondCommitFailsEnv : SiloEnv where
  allocationUnitSize := 4096
  topoGetNUMANodeOSIndex := fun n => (n : Int)
  virtualAlloc := fun startPtr _ _ _ =>
    match startPtr with
    | none => some 65536
    | some a => if a == 65536 then some a else none

/-- Environment in which logical node 1 does not resolve to an OS node
index (the topology service returns -1 for it). -/
def badNodeEnv : SiloEnv where
  allocationUnitSize := 4096
  topoGetNUMANodeOSIndex := fun n => if n == 1 then (-1 : Int) else 0
  virtualAlloc := fun startPtr _ _ _ =>
    match startPtr with
    | none => some 65536
    | some a => some a

/-! ### Helper lemmas about the loops -/

/-- When the unit is positive and the fuel is at least `totalRequested -
totalActual`, the padding loop exits normally: the final total is the
initial total plus one unit per iteration, it covers `totalRequested`,
and the iteration count is bounded by `totalRequested - totalActual`. -/
theorem padLoopFuel_spec (fuel unit totalRequested : Nat) :
    ∀ totalActual : Nat, 0 < unit → totalRequested - totalActual ≤ fuel →
      (padLoopFuel fuel unit totalRequested totalActual).1
        = totalActual + (padLoopFuel fuel unit totalRequested totalActual).2 * unit
      ∧ totalRequested ≤ (padLoopFuel fuel unit totalRequested totalActual).1
      ∧ (padLoopFuel fuel unit totalRequested totalActual).2
          ≤ totalRequested - totalActual := by
  induction fuel with
  | zero =>
    intro totalActual _ hf
    simp only [padLoopFuel]
    omega
  | succ n ih =>
    intro totalActual hu hf
    by_cases hlt : totalActual < totalRequested
    · have h := ih (totalActual + unit) hu (by omega)
      simp only [padLoopFuel, if_pos hlt]
      have hmul : ((padLoopFuel n unit totalRequested (totalActual + unit)).2 + 1) * unit
          = (padLoopFuel n unit totalRequested (totalActual + unit)).2 * unit + unit :=
        Nat.succ_mul _ _
      omega
    · simp only [padLoopFuel, if_neg hlt]
      omega

/-- If the validation loop runs to completion, the caller's array ends
up being the already-done prefix followed by every remaining entry
rounded in place. -/
theorem validateLoop_ok_arr (env : SiloEnv) (l : List SSiloMemorySpec) :
    ∀ (done : List SSiloMemorySpec) (tr ta : Nat),
      (validateLoop env l done tr ta).ok = true →
      (validateLoop env l done tr ta).arr = done ++ l.map (roundSpecEntry env) := by
  induction l with
  | nil => intro done tr ta _; simp [validateLoop]
  | cons s rest ih =>
    intro done tr ta h
    by_cases hs : env.topoGetNUMANodeOSIndex s.numaNode < 0
    · simp [validateLoop, hs] at h
    · simp only [validateLoop, if_neg hs] at h ⊢
      rw [ih _ _ _ h]
      simp [roundSpecEntry]

/-- If some entry's logical node fails to resolve, the validation loop
bails out with `ok = false`; the entries before the first unresolvable
one have been rounded in place and the rest are untouched. -/
theorem validateLoop_fail (env : SiloEnv) (l : List SSiloMemorySpec) :
    ∀ (done : List SSiloMemorySpec) (tr ta : Nat),
      l.any (invalidNode env) = true →
      (validateLoop env l done tr ta).ok = false
      ∧ (validateLoop env l done tr ta).arr =
          done ++ (l.take (l.findIdx (invalidNode env))).map (roundSpecEntry env)
            ++ l.drop (l.findIdx (invalidNode env)) := by
  induction l with
  | nil => intro done tr ta h; simp at h
  | cons s rest ih =>
    intro done tr ta h
    by_cases hs : env.topoGetNUMANodeOSIndex s.numaNode < 0
    · have hinv : invalidNode env s = true := by simp [invalidNode, hs]
      simp [validateLoop, hs, List.findIdx_cons, hinv]
    · have hinv : invalidNode env s = false := by simp [invalidNode, hs]
      have hrest : rest.any (invalidNode env) = true := by
        rcases List.any_eq_true.mp h with ⟨x, hx, hxi⟩
        rcases List.mem_cons.mp hx with rfl | hx'
        · exact absurd hxi (by simp [hinv])
        · exact List.any_eq_true.mpr ⟨x, hx', hxi⟩
      have h' := ih (done ++ [roundSpecEntry env s]) (tr + s.size)
        (ta + siloWindowsRoundRequestedAllocationSize env.allocationUnitSize s.size) hrest
      simp only [validateLoop, if_neg hs]
      refine ⟨by simpa [roundSpecEntry] using h'.1, ?_⟩
      have harr := h'.2
      simp only [List.findIdx_cons, hinv, cond_false]
      simp only [List.take_succ_cons, List.drop_succ_cons, List.map_cons]
      simpa [roundSpecEntry, List.append_assoc] using harr

/-- `contigSpecs` records one piece per request. -/
theorem contigSpecs_length (l : List SSiloMemorySpec) :
    ∀ base : Nat, (contigSpecs base l).length = l.length := by
  induction l with
  | nil => intro base; simp [contigSpecs]
  | cons s rest ih => intro base; simp [contigSpecs, ih]

/-- `contigSpecs` records each request's (rounded) size unchanged. -/
theorem contigSpecs_map_size (l : List SSiloMemorySpec) :
    ∀ base : Nat,
      (contigSpecs base l).map SSiloAllocationSpec.size = l.map SSiloMemorySpec.size := by
  induction l with
  | nil => intro base; simp [contigSpecs]
  | cons s rest ih => intro base; simp [contigSpecs, ih]

/-- The pieces recorded by `contigSpecs` are contiguous. -/
theorem contigSpecs_contiguous (l : List SSiloMemorySpec) :
    ∀ base : Nat, contiguousPieces (contigSpecs base l) = true := by
  induction l with
  | nil => intro base; simp [contigSpecs, contiguousPieces]
  | cons s rest ih =>
    intro base
    cases rest with
    | nil => simp [contigSpecs, contiguousPieces]
    | cons t rest' =>
      have h := ih (base + s.size)
      simp only [contigSpecs] at h ⊢
      simp [contiguousPieces, h]

/-- If every piece committed, the recorded pieces are exactly the
contiguous sequence starting at the probed base. -/
theorem commitLoop_ok_specs (env : SiloEnv) (l : List SSiloMemorySpec) :
    ∀ base : Nat, (commitLoop env base l).ok = true →
      (commitLoop env base l).specs = contigSpecs base l := by
  induction l with
  | nil => intro base _; simp [commitLoop, contigSpecs]
  | cons s rest ih =>
    intro base h
    cases hv : siloWindowsMemoryAllocAtNUMA env s.size
        ((env.topoGetNUMANodeOSIndex s.numaNode).toNat) (some base) true with
    | none => simp [commitLoop, hv] at h
    | some r =>
      simp only [commitLoop, hv] at h ⊢
      simp only [contigSpecs]
      exact congrArg _ (ih _ h)

/-- The commit loop emits only `VirtualAllocExNuma` events: no frees and
no registry submissions. -/
theorem commitLoop_events_alloc (env : SiloEnv) (l : List SSiloMemorySpec) :
    ∀ base : Nat, ∀ e ∈ (commitLoop env base l).events,
      e.isSubmitEvent = false ∧ e.isFreeEvent = false := by
  induction l with
  | nil => intro base e he; simp [commitLoop] at he
  | cons s rest ih =>
    intro base e he
    cases hv : siloWindowsMemoryAllocAtNUMA env s.size
        ((env.topoGetNUMANodeOSIndex s.numaNode).toNat) (some base) true with
    | none =>
      simp only [commitLoop, hv] at he
      simp only [List.mem_singleton] at he
      subst he
      exact ⟨rfl, rfl⟩
    | some r =>
      simp only [commitLoop, hv] at he
      rcases List.mem_cons.mp he with rfl | he'
      · exact ⟨rfl, rfl⟩
      · exact ih _ e he'

/-- If every piece committed, no event of the commit loop is a failed
commit. -/
theorem commitLoop_ok_no_failed (env : SiloEnv) (l : List SSiloMemorySpec) :
    ∀ base : Nat, (commitLoop env base l).ok = true →
      ∀ e ∈ (commitLoop env base l).events, e.isFailedCommit = false := by
  induction l with
  | nil => intro base _ e he; simp [commitLoop] at he
  | cons s rest ih =>
    intro base h e he
    cases hv : siloWindowsMemoryAllocAtNUMA env s.size
        ((env.topoGetNUMANodeOSIndex s.numaNode).toNat) (some base) true with
    | none => simp [commitLoop, hv] at h
    | some r =>
      simp only [commitLoop, hv] at h he
      rcases List.mem_cons.mp he with rfl | he'
      · rfl
      · exact ih _ h e he'

/-- Every successful commit event of the commit loop corresponds to a
recorded piece with that address and size. -/
theorem commitLoop_event_mem_specs (env : SiloEnv) (l : List SSiloMemorySpec) :
    ∀ base : Nat, ∀ a s n x : Nat,
      SiloEvent.alloc (some a) s n true (some x) ∈ (commitLoop env base l).events →
      (⟨a, s⟩ : SSiloAllocationSpec) ∈ (commitLoop env base l).specs := by
  induction l with
  | nil => intro base a s n x he; simp [commitLoop] at he
  | cons sp rest ih =>
    intro base a s n x he
    cases hv : siloWindowsMemoryAllocAtNUMA env sp.size
        ((env.topoGetNUMANodeOSIndex sp.numaNode).toNat) (some base) true with
    | none =>
      simp only [commitLoop, hv] at he
      simp only [List.mem_singleton, SiloEvent.alloc.injEq] at he
      exact absurd he.2.2.2.2 (by simp)
    | some r =>
      simp only [commitLoop, hv] at he ⊢
      rcases List.mem_cons.mp he with heq | he'
      · rw [SiloEvent.alloc.injEq] at heq
        obtain ⟨h1, h2, _, _, _⟩ := heq
        apply List.mem_cons.mpr
        left
        rw [Option.some.injEq] at h1
        rw [h1, h2]
      · exact List.mem_cons.mpr (Or.inr (ih _ a s n x he'))

/-- Every recorded piece of the commit loop corresponds to a successful
commit event at its address and size. -/
theorem commitLoop_spec_mem_events (env : SiloEnv) (l : List SSiloMemorySpec) :
    ∀ base : Nat, ∀ p ∈ (commitLoop env base l).specs, ∃ n x : Nat,
      SiloEvent.alloc (some p.ptr) p.size n true (some x) ∈ (commitLoop env base l).events := by
  induction l with
  | nil => intro base p hp; simp [commitLoop] at hp
  | cons sp rest ih =>
    intro base p hp
    cases hv : siloWindowsMemoryAllocAtNUMA env sp.size
        ((env.topoGetNUMANodeOSIndex sp.numaNode).toNat) (some base) true with
    | none => simp [commitLoop, hv] at hp
    | some r =>
      simp only [commitLoop, hv] at hp ⊢
      rcases List.mem_cons.mp hp with rfl | hp'
      · exact ⟨(env.topoGetNUMANodeOSIndex sp.numaNode).toNat, r, List.mem_cons_self _ _⟩
      · obtain ⟨n, x, hx⟩ := ih _ p hp'
        exact ⟨n, x, List.mem_cons.mpr (Or.inr hx)⟩

/-- If some piece failed to commit, the commit-loop trace is a sequence
of successful commits followed by exactly one failed commit, after which
the loop stopped. -/
theorem commitLoop_fail_structure (env : SiloEnv) (l : List SSiloMemorySpec) :
    ∀ base : Nat, (commitLoop env base l).ok = false →
      ∃ pre fe, (commitLoop env base l).events = pre ++ [fe]
        ∧ (∀ e ∈ pre, e.isFailedCommit = false)
        ∧ fe.isFailedCommit = true := by
  induction l with
  | nil => intro base h; simp [commitLoop] at h
  | cons sp rest ih =>
    intro base h
    cases hv : siloWindowsMemoryAllocAtNUMA env sp.size
        ((env.topoGetNUMANodeOSIndex sp.numaNode).toNat) (some base) true with
    | none =>
      refine ⟨[], SiloEvent.alloc (some base) sp.size
        ((env.topoGetNUMANodeOSIndex sp.numaNode).toNat) true none, ?_, by simp, rfl⟩
      simp [commitLoop, hv]
    | some r =>
      simp only [commitLoop, hv] at h ⊢
      obtain ⟨pre, fe, hev, hpre, hfe⟩ := ih _ h
      refine ⟨SiloEvent.alloc (some base) sp.size
        ((env.topoGetNUMANodeOSIndex sp.numaNode).toNat) true (some r) :: pre, fe, ?_, ?_, hfe⟩
      · simp [hev]
      · intro e he
        rcases List.mem_cons.mp he with rfl | he'
        · rfl
        · exact hpre e he'

/-- A trace with no failed commit trivially has no commit after a
failure. -/
theorem noCommitAfterFail_of_no_failed (l : List SiloEvent)
    (h : ∀ e ∈ l, e.isFailedCommit = false) : noCommitAfterFail l = true := by
  induction l with
  | nil => rfl
  | cons e rest ih =>
    simp only [noCommitAfterFail, Bool.and_eq_true]
    refine ⟨?_, ih fun x hx => h x (List.mem_cons.mpr (Or.inr hx))⟩
    rw [h e (List.mem_cons_self _ _)]
    simp

/-- A failed commit does imply a commit attempt. -/
theorem isFailedCommit_isCommitAttempt (e : SiloEvent)
    (h : e.isFailedCommit = true) : e.isCommitAttempt = true := by
  cases e with
  | alloc sp sz n c r =>
    cases c with
    | false => simp [SiloEvent.isFailedCommit] at h
    | true => rfl
  | free p s => simp [SiloEvent.isFailedCommit] at h
  | submit c s => simp [SiloEvent.isFailedCommit] at h

/-- A trace consisting of non-failed events, then one failed commit,
then events that are not commit attempts, has no commit after the
failure. -/
theorem noCommitAfterFail_sandwich (xs : List SiloEvent) (fe : SiloEvent)
    (ys : List SiloEvent) (hxs : ∀ e ∈ xs, e.isFailedCommit = false)
    (hys : ∀ e ∈ ys, e.isCommitAttempt = false) :
    noCommitAfterFail (xs ++ fe :: ys) = true := by
  induction xs with
  | nil =>
    simp only [List.nil_append, noCommitAfterFail, Bool.and_eq_true]
    constructor
    · cases hfe : fe.isFailedCommit with
      | false => simp [hfe]
      | true =>
        simp only [hfe, if_true]
        exact List.all_eq_true.mpr fun e he => by rw [hys e he]; rfl
    · refine noCommitAfterFail_of_no_failed ys fun e he => ?_
      cases hef : e.isFailedCommit with
      | false => rfl
      | true =>
        have hc := hys e he
        rw [isFailedCommit_isCommitAttempt e hef] at hc
        exact absurd hc (by simp)
  | cons x xs' ih =>
    simp only [List.cons_append, noCommitAfterFail, Bool.and_eq_true]
    refine ⟨?_, ih fun e he => hxs e (List.mem_cons.mpr (Or.inr he))⟩
    rw [hxs x (List.mem_cons_self _ _)]
    simp

/-- If every piece committed, each recorded piece (paired with the
request it came from) has a successful commit event at exactly its
address and size, on the request's resolved OS node. -/
theorem commitLoop_ok_zip (env : SiloEnv) (l : List SSiloMemorySpec) :
    ∀ base : Nat, (commitLoop env base l).ok = true →
      ∀ pr ∈ (commitLoop env base l).specs.zip l, ∃ x : Nat,
        SiloEvent.alloc (some pr.1.ptr) pr.1.size
          ((env.topoGetNUMANodeOSIndex pr.2.numaNode).toNat) true (some x)
          ∈ (commitLoop env base l).events := by
  induction l with
  | nil => intro base _ pr hpr; simp [commitLoop] at hpr
  | cons s rest ih =>
    intro base h pr hpr
    cases hv : siloWindowsMemoryAllocAtNUMA env s.size
        ((env.topoGetNUMANodeOSIndex s.numaNode).toNat) (some base) true with
    | none => simp [commitLoop, hv] at h
    | some r =>
      simp only [commitLoop, hv] at h hpr ⊢
      rcases List.mem_cons.mp (by simpa using hpr) with heq | hpr'
      · subst heq
        exact ⟨r, List.mem_cons_self _ _⟩
      · obtain ⟨x, hx⟩ := ih _ h pr hpr'
        exact ⟨x, List.mem_cons.mpr (Or.inr hx)⟩

/-- Characterisation of a successful `siloMultinodeArrayAlloc` call:
the probe reservation yielded a base address, every piece committed, the
returned pointer is the first recorded piece's address, the caller's
array holds the rounded sizes, and the trace is probe, probe release,
the per-piece commits, and the registry submission. -/
theorem alloc_success_cases (env : SiloEnv) (spec : List SSiloMemorySpec) (pastEnd p : Nat)
    (h : (siloMultinodeArrayAlloc env spec pastEnd).ret = some p) :
    ∃ base,
      siloWindowsMemoryAllocAtNUMA env (probeTotal env spec) 0 none false = some base
      ∧ (commitLoop env base (spec.map (roundSpecEntry env))).ok = true
      ∧ (commitLoop env base (spec.map (roundSpecEntry env))).specs.head?.map
          SSiloAllocationSpec.ptr = some p
      ∧ (siloMultinodeArrayAlloc env spec pastEnd).finalSpec = spec.map (roundSpecEntry env)
      ∧ (siloMultinodeArrayAlloc env spec pastEnd).events =
          [SiloEvent.alloc none (probeTotal env spec) 0 false (some base),
            SiloEvent.free base (probeTotal env spec)]
          ++ (commitLoop env base (spec.map (roundSpecEntry env))).events
          ++ [SiloEvent.submit spec.length
              (commitLoop env base (spec.map (roundSpecEntry env))).specs] := by
  cases hok : (validateLoop env spec [] 0 0).ok with
  | false =>
    exfalso
    simp only [siloMultinodeArrayAlloc, hok] at h
    simp at h
  | true =>
    have harr : (validateLoop env spec [] 0 0).arr = spec.map (roundSpecEntry env) := by
      simpa using validateLoop_ok_arr env spec [] 0 0 hok
    by_cases hta : (validateLoop env spec [] 0 0).totalActualBytes = 0
    · exfalso
      simp only [siloMultinodeArrayAlloc, hok, hta] at h
      simp at h
    · cases hpr : siloWindowsMemoryAllocAtNUMA env
          (padLoop env.allocationUnitSize (validateLoop env spec [] 0 0).totalRequestedBytes
            (validateLoop env spec [] 0 0).totalActualBytes).1 0 none false with
      | none =>
        exfalso
        simp only [siloMultinodeArrayAlloc, hok, hta, hpr] at h
        simp at h
      | some base =>
        cases hc : (commitLoop env base (validateLoop env spec [] 0 0).arr).ok with
        | false =>
          exfalso
          simp only [siloMultinodeArrayAlloc, hok, hta, hpr, hc] at h
          simp at h
        | true =>
          refine ⟨base, ?_, ?_, ?_, ?_, ?_⟩
          · rw [probeTotal]; exact hpr
          · rw [← harr]; exact hc
          · rw [← harr]
            simp only [siloMultinodeArrayAlloc, hok, hta, hpr, hc] at h
            simpa using h
          · simp only [siloMultinodeArrayAlloc, hok, hta, hpr, hc]
            simp [harr]
          · simp only [siloMultinodeArrayAlloc, hok, hta, hpr, hc]
            rw [probeTotal]
            simp [harr]

/-! ### Claim theorems -/

/-- Claim C10: for every input with a positive allocation unit size the
coverage-padding while-loop terminates: each iteration adds one
allocation unit to the running total, so after at most `totalRequested -
totalActual` iterations the total covers the requested total and the
loop guard fails. -/
theorem paddingLoopTerminates (unit totalRequested totalActual : Nat) (hu : 0 < unit) :
    (padLoop unit totalRequested totalActual).1
      = totalActual + (padLoop unit totalRequested totalActual).2 * unit
    ∧ totalRequested ≤ (padLoop unit totalRequested totalActual).1
    ∧ (padLoop unit totalRequested totalActual).2 ≤ totalRequested - totalActual := by
  unfold padLoop
  exact padLoopFuel_spec _ unit _ totalActual hu (le_refl _)

/-- Witness for C10 at the spec's worked scenario totals. -/
theorem paddingLoopTerminates_witness :
    0 < 4096
    ∧ ((padLoop 4096 15000 12288).1 = 12288 + (padLoop 4096 15000 12288).2 * 4096
      ∧ 15000 ≤ (padLoop 4096 15000 12288).1
      ∧ (padLoop 4096 15000 12288).2 ≤ 15000 - 12288) :=
  ⟨by decide, paddingLoopTerminates 4096 15000 12288 (by decide)⟩

/-- Claim C3 (amended: for even allocation units): the rounding function
returns a multiple of the unit, computed by the claim's quotient /
remainder formula, and for an even unit that is exactly the nearest
multiple with ties rounding up; a size whose remainder is below half the
unit and whose quotient is zero rounds to zero. -/
theorem roundingCorrectForEvenUnit (u s : Nat) (hu : 0 < u) (he : u % 2 = 0) :
    siloWindowsRoundRequestedAllocationSize u s % u = 0
    ∧ siloWindowsRoundRequestedAllocationSize u s
        = (if u / 2 ≤ s % u then u * (s / u + 1) else u * (s / u))
    ∧ IsNearestMultipleTiesUp u s (siloWindowsRoundRequestedAllocationSize u s)
    ∧ (s % u < u / 2 → s / u = 0 → siloWindowsRoundRequestedAllocationSize u s = 0) := by
  have hqr : u * (s / u) + s % u = s := Nat.div_add_mod s u
  have hr : s % u < u := Nat.mod_lt s hu
  have hm : u / 2 * 2 = u := Nat.div_mul_cancel (Nat.dvd_of_mod_eq_zero he)
  have hsucc : u * (s / u + 1) = u * (s / u) + u := by ring
  simp only [siloWindowsRoundRequestedAllocationSize]
  by_cases hc : u / 2 ≤ s % u
  · simp only [if_pos hc]
    refine ⟨Nat.mul_mod_right _ _, by simp, ⟨dvd_mul_right u _, ?_, ?_⟩, ?_⟩
    · intro k
      rcases le_or_lt k (s / u) with hk | hk
      · have hku : u * k ≤ u * (s / u) := Nat.mul_le_mul_left u hk
        simp only [Nat.dist]
        omega
      · have hku : u * (s / u + 1) ≤ u * k := Nat.mul_le_mul_left u hk
        simp only [Nat.dist]
        omega
    · intro k hdist
      rcases le_or_lt k (s / u) with hk | hk
      · have hku : u * k ≤ u * (s / u) := Nat.mul_le_mul_left u hk
        omega
      · have hku : u * (s / u + 1) ≤ u * k := Nat.mul_le_mul_left u hk
        simp only [Nat.dist] at hdist
        omega
    · intro h1 _
      omega
  · simp only [if_neg hc]
    refine ⟨Nat.mul_mod_right _ _, by simp, ⟨dvd_mul_right u _, ?_, ?_⟩, ?_⟩
    · intro k
      rcases le_or_lt k (s / u) with hk | hk
      · have hku : u * k ≤ u * (s / u) := Nat.mul_le_mul_left u hk
        simp only [Nat.dist]
        omega
      · have hku : u * (s / u + 1) ≤ u * k := Nat.mul_le_mul_left u hk
        simp only [Nat.dist]
        omega
    · intro k hdist
      rcases le_or_lt k (s / u) with hk | hk
      · have hku : u * k ≤ u * (s / u) := Nat.mul_le_mul_left u hk
        omega
      · have hku : u * (s / u + 1) ≤ u * k := Nat.mul_le_mul_left u hk
        simp only [Nat.dist] at hdist
        omega
    · intro _ h2
      rw [h2, Nat.mul_zero]

/-- Counterexample for C3 as stated: with allocation unit 3 and size 1
the code rounds up to 3 (remainder 1 is at least `3 / 2 = 1` under C
integer division), yet 0 is a strictly nearer multiple of 3, so the
result is not the nearest multiple with ties rounding up. -/
theorem roundingNotNearestCounterexample :
    siloWindowsRoundRequestedAllocationSize 3 1 = 3
    ∧ ¬ IsNearestMultipleTiesUp 3 1 (siloWindowsRoundRequestedAllocationSize 3 1) := by
  refine ⟨by decide, ?_⟩
  intro hP
  have h0 := hP.2.1 0
  exact absurd h0 (by decide)

/-- Witness for the amended C3 at the spec's own example `u = 4096`,
`s = 6144`. -/
theorem roundingCorrectForEvenUnit_witness :
    siloWindowsRoundRequestedAllocationSize 4096 6144 % 4096 = 0
    ∧ siloWindowsRoundRequestedAllocationSize 4096 6144
        = (if 4096 / 2 ≤ 6144 % 4096 then 4096 * (6144 / 4096 + 1) else 4096 * (6144 / 4096))
    ∧ IsNearestMultipleTiesUp 4096 6144 (siloWindowsRoundRequestedAllocationSize 4096 6144)
    ∧ (6144 % 4096 < 4096 / 2 → 6144 / 4096 = 0 →
        siloWindowsRoundRequestedAllocationSize 4096 6144 = 0) :=
  roundingCorrectForEvenUnit 4096 6144 (by decide) (by decide)

/-- Claim C6 (amended): if some requested piece's logical node fails to
resolve, the call returns `NULL` before any backend or registry
interaction (the event trace is empty); however, the size fields of the
pieces preceding the first unresolvable one have already been rounded in
place in the caller's array. -/
theorem invalidNodeWholeCallFails (env : SiloEnv) (spec : List SSiloMemorySpec) (pastEnd : Nat)
    (h : spec.any (invalidNode env) = true) :
    (siloMultinodeArrayAlloc env spec pastEnd).ret = none
    ∧ (siloMultinodeArrayAlloc env spec pastEnd).events = []
    ∧ (siloMultinodeArrayAlloc env spec pastEnd).finalSpec =
        (spec.take (spec.findIdx (invalidNode env))).map (roundSpecEntry env)
          ++ spec.drop (spec.findIdx (invalidNode env)) := by
  obtain ⟨hok, harr⟩ := validateLoop_fail env spec [] 0 0 h
  simp only [siloMultinodeArrayAlloc, hok]
  simpa using harr

/-- Counterexample for C6 as stated: with logical node 1 unresolvable,
the call on pieces `[(node 0, 10000), (node 1, 5000)]` returns `NULL`
with no backend interaction, but it is not free of side effects: the
first entry of the caller's array has been mutated (10000 → 8192). -/
theorem invalidNodeSideEffectCounterexample :
    (siloMultinodeArrayAlloc badNodeEnv scenarioSpec 0).ret = none
    ∧ (siloMultinodeArrayAlloc badNodeEnv scenarioSpec 0).events = []
    ∧ (siloMultinodeArrayAlloc badNodeEnv scenarioSpec 0).finalSpec ≠ scenarioSpec := by
  decide

/-- Witness for the amended C6. -/
theorem invalidNodeWholeCallFails_witness :
    scenarioSpec.any (invalidNode badNodeEnv) = true
    ∧ ((siloMultinodeArrayAlloc badNodeEnv scenarioSpec 0).ret = none
      ∧ (siloMultinodeArrayAlloc badNodeEnv scenarioSpec 0).events = []
      ∧ (siloMultinodeArrayAlloc badNodeEnv scenarioSpec 0).finalSpec =
          (scenarioSpec.take (scenarioSpec.findIdx (invalidNode badNodeEnv))).map
            (roundSpecEntry badNodeEnv)
            ++ scenarioSpec.drop (scenarioSpec.findIdx (invalidNode badNodeEnv))) :=
  ⟨by decide, invalidNodeWholeCallFails badNodeEnv scenarioSpec 0 (by decide)⟩

/-- Claim C7: whenever the call reaches the probe step, the first
backend interaction is a reservation (not a commit) of the full padded
total on node 0 with an OS-chosen address; if it fails the call returns
`NULL` with no commit attempted, and if it succeeds the probe region is
released again (second event) before any per-node commit. -/
theorem probeReservationProtocol (env : SiloEnv) (spec : List SSiloMemorySpec) (pastEnd : Nat)
    (h : reachesProbe env spec = true) :
    (siloMultinodeArrayAlloc env spec pastEnd).events.head?
        = some (SiloEvent.alloc none (probeTotal env spec) 0 false
            (siloWindowsMemoryAllocAtNUMA env (probeTotal env spec) 0 none false))
    ∧ (siloWindowsMemoryAllocAtNUMA env (probeTotal env spec) 0 none false = none →
        (siloMultinodeArrayAlloc env spec pastEnd).ret = none
        ∧ ∀ e ∈ (siloMultinodeArrayAlloc env spec pastEnd).events, e.isCommitAttempt = false)
    ∧ ∀ base : Nat,
        siloWindowsMemoryAllocAtNUMA env (probeTotal env spec) 0 none false = some base →
        (siloMultinodeArrayAlloc env spec pastEnd).events.take 2
          = [SiloEvent.alloc none (probeTotal env spec) 0 false (some base),
              SiloEvent.free base (probeTotal env spec)] := by
  have hok : (validateLoop env spec [] 0 0).ok = true := by
    have := (Bool.and_eq_true _ _).mp h
    exact this.1
  have hta : ¬((validateLoop env spec [] 0 0).totalActualBytes = 0) := by
    have := (Bool.and_eq_true _ _).mp h
    simpa using this.2
  cases hpr : siloWindowsMemoryAllocAtNUMA env
      (padLoop env.allocationUnitSize (validateLoop env spec [] 0 0).totalRequestedBytes
        (validateLoop env spec [] 0 0).totalActualBytes).1 0 none false with
  | none =>
    have hpt : siloWindowsMemoryAllocAtNUMA env (probeTotal env spec) 0 none false = none := by
      rw [probeTotal]; exact hpr
    refine ⟨?_, fun _ => ⟨?_, ?_⟩, fun base hbase => ?_⟩
    · simp [siloMultinodeArrayAlloc, hok, hta, hpr, probeTotal]
    · simp [siloMultinodeArrayAlloc, hok, hta, hpr]
    · intro e he
      simp [siloMultinodeArrayAlloc, hok, hta, hpr] at he
      subst he
      rfl
    · rw [hpt] at hbase
      exact absurd hbase (by simp)
  | some base =>
    have hpt : siloWindowsMemoryAllocAtNUMA env (probeTotal env spec) 0 none false
        = some base := by
      rw [probeTotal]; exact hpr
    cases hc : (commitLoop env base (validateLoop env spec [] 0 0).arr).ok with
    | true =>
      refine ⟨?_, fun hnone => ?_, fun b hb => ?_⟩
      · simp [siloMultinodeArrayAlloc, hok, hta, hpr, hc, probeTotal]
      · rw [hpt] at hnone; exact absurd hnone (by simp)
      · rw [hpt] at hb
        have hbb : base = b := by simpa using hb
        subst hbb
        simp [siloMultinodeArrayAlloc, hok, hta, hpr, hc, probeTotal]
    | false =>
      refine ⟨?_, fun hnone => ?_, fun b hb => ?_⟩
      · simp [siloMultinodeArrayAlloc, hok, hta, hpr, hc, probeTotal]
      · rw [hpt] at hnone; exact absurd hnone (by simp)
      · rw [hpt] at hb
        have hbb : base = b := by simpa using hb
        subst hbb
        simp [siloMultinodeArrayAlloc, hok, hta, hpr, hc, probeTotal]

/-- Witness for C7 at the worked scenario. -/
theorem probeReservationProtocol_witness :
    reachesProbe goodEnv scenarioSpec = true
    ∧ ((siloMultinodeArrayAlloc goodEnv scenarioSpec 0).events.head?
        = some (SiloEvent.alloc none (probeTotal goodEnv scenarioSpec) 0 false
            (siloWindowsMemoryAllocAtNUMA goodEnv (probeTotal goodEnv scenarioSpec) 0 none false))
      ∧ (siloWindowsMemoryAllocAtNUMA goodEnv (probeTotal goodEnv scenarioSpec) 0 none false
            = none →
          (siloMultinodeArrayAlloc goodEnv scenarioSpec 0).ret = none
          ∧ ∀ e ∈ (siloMultinodeArrayAlloc goodEnv scenarioSpec 0).events,
              e.isCommitAttempt = false)
      ∧ ∀ base : Nat,
          siloWindowsMemoryAllocAtNUMA goodEnv (probeTotal goodEnv scenarioSpec) 0 none false
            = some base →
          (siloMultinodeArrayAlloc goodEnv scenarioSpec 0).events.take 2
            = [SiloEvent.alloc none (probeTotal goodEnv scenarioSpec) 0 false (some base),
                SiloEvent.free base (probeTotal goodEnv scenarioSpec)]) :=
  ⟨by decide, probeReservationProtocol goodEnv scenarioSpec 0 (by decide)⟩

/-- Claim C5: on every successful call the submitted piece sequence is
contiguous, starts at the returned base address, carries exactly the
rounded sizes written back into the caller's array, and every piece has
a successful commit event at exactly its address and size on its
request's resolved OS node. -/
theorem successPiecesContiguous (env : SiloEnv) (spec : List SSiloMemorySpec)
    (pastEnd p : Nat) (h : (siloMultinodeArrayAlloc env spec pastEnd).ret = some p) :
    ∃ pieces : List SSiloAllocationSpec,
      SiloEvent.submit spec.length pieces ∈ (siloMultinodeArrayAlloc env spec pastEnd).events
      ∧ contiguousPieces pieces = true
      ∧ pieces.head?.map SSiloAllocationSpec.ptr = some p
      ∧ pieces.map SSiloAllocationSpec.size
          = spec.map (fun s =>
              siloWindowsRoundRequestedAllocationSize env.allocationUnitSize s.size)
      ∧ (siloMultinodeArrayAlloc env spec pastEnd).finalSpec = spec.map (roundSpecEntry env)
      ∧ ∀ pr ∈ pieces.zip ((siloMultinodeArrayAlloc env spec pastEnd).finalSpec),
          ∃ x : Nat,
            SiloEvent.alloc (some pr.1.ptr) pr.1.size
              ((env.topoGetNUMANodeOSIndex pr.2.numaNode).toNat) true (some x)
              ∈ (siloMultinodeArrayAlloc env spec pastEnd).events := by
  obtain ⟨base, hpr, hcok, hhead, hfs, hev⟩ := alloc_success_cases env spec pastEnd p h
  refine ⟨(commitLoop env base (spec.map (roundSpecEntry env))).specs, ?_, ?_, hhead, ?_, hfs, ?_⟩
  · rw [hev]; simp
  · rw [commitLoop_ok_specs env _ base hcok]
    exact contigSpecs_contiguous _ base
  · rw [commitLoop_ok_specs env _ base hcok, contigSpecs_map_size]
    simp [roundSpecEntry]
  · intro pr hpr'
    rw [hfs] at hpr'
    obtain ⟨x, hx⟩ := commitLoop_ok_zip env (spec.map (roundSpecEntry env)) base hcok pr hpr'
    refine ⟨x, ?_⟩
    rw [hev]
    simp only [List.mem_append]
    exact Or.inl (Or.inr hx)

/-- Witness for C5 at the worked scenario. -/
theorem successPiecesContiguous_witness :
    (siloMultinodeArrayAlloc goodEnv scenarioSpec 7).ret = some 65536
    ∧ ∃ pieces : List SSiloAllocationSpec,
        SiloEvent.submit scenarioSpec.length pieces
          ∈ (siloMultinodeArrayAlloc goodEnv scenarioSpec 7).events
        ∧ contiguousPieces pieces = true
        ∧ pieces.head?.map SSiloAllocationSpec.ptr = some 65536
        ∧ pieces.map SSiloAllocationSpec.size
            = scenarioSpec.map (fun s =>
                siloWindowsRoundRequestedAllocationSize goodEnv.allocationUnitSize s.size)
        ∧ (siloMultinodeArrayAlloc goodEnv scenarioSpec 7).finalSpec
            = scenarioSpec.map (roundSpecEntry goodEnv)
        ∧ ∀ pr ∈ pieces.zip ((siloMultinodeArrayAlloc goodEnv scenarioSpec 7).finalSpec),
            ∃ x : Nat,
              SiloEvent.alloc (some pr.1.ptr) pr.1.size
                ((goodEnv.topoGetNUMANodeOSIndex pr.2.numaNode).toNat) true (some x)
                ∈ (siloMultinodeArrayAlloc goodEnv scenarioSpec 7).events :=
  ⟨by decide, successPiecesContiguous goodEnv scenarioSpec 7 65536 (by decide)⟩

/-- Claim C8: on every successful call the last backend interaction is
the registry submission of the full ordered piece list (one entry per
requested piece), whose first piece's address is exactly the returned
pointer, and every submitted entry was committed at its recorded
address and size. -/
theorem successRegistrySubmission (env : SiloEnv) (spec : List SSiloMemorySpec)
    (pastEnd p : Nat) (h : (siloMultinodeArrayAlloc env spec pastEnd).ret = some p) :
    ∃ pieces : List SSiloAllocationSpec,
      (siloMultinodeArrayAlloc env spec pastEnd).events.getLast?
        = some (SiloEvent.submit spec.length pieces)
      ∧ pieces.length = spec.length
      ∧ pieces.head?.map SSiloAllocationSpec.ptr = some p
      ∧ ∀ pc ∈ pieces, ∃ n x : Nat,
          SiloEvent.alloc (some pc.ptr) pc.size n true (some x)
            ∈ (siloMultinodeArrayAlloc env spec pastEnd).events := by
  obtain ⟨base, hpr, hcok, hhead, hfs, hev⟩ := alloc_success_cases env spec pastEnd p h
  refine ⟨(commitLoop env base (spec.map (roundSpecEntry env))).specs, ?_, ?_, hhead, ?_⟩
  · rw [hev]
    exact List.getLast?_concat _
  · rw [commitLoop_ok_specs env _ base hcok, contigSpecs_length]
    simp
  · intro pc hpc
    obtain ⟨n, x, hx⟩ := commitLoop_spec_mem_events env (spec.map (roundSpecEntry env)) base pc hpc
    refine ⟨n, x, ?_⟩
    rw [hev]
    simp only [List.mem_append]
    exact Or.inl (Or.inr hx)

/-- Witness for C8 at the worked scenario. -/
theorem successRegistrySubmission_witness :
    (siloMultinodeArrayAlloc goodEnv scenarioSpec 0).ret = some 65536
    ∧ ∃ pieces : List SSiloAllocationSpec,
        (siloMultinodeArrayAlloc goodEnv scenarioSpec 0).events.getLast?
          = some (SiloEvent.submit scenarioSpec.length pieces)
        ∧ pieces.length = scenarioSpec.length
        ∧ pieces.head?.map SSiloAllocationSpec.ptr = some 65536
        ∧ ∀ pc ∈ pieces, ∃ n x : Nat,
            SiloEvent.alloc (some pc.ptr) pc.size n true (some x)
              ∈ (siloMultinodeArrayAlloc goodEnv scenarioSpec 0).events :=
  ⟨by decide, successRegistrySubmission goodEnv scenarioSpec 0 65536 (by decide)⟩

/-- Prepending a non-failed event does not affect `noCommitAfterFail`. -/
theorem noCommitAfterFail_cons_ok (e : SiloEvent) (l : List SiloEvent)
    (he : e.isFailedCommit = false) :
    noCommitAfterFail (e :: l) = noCommitAfterFail l := by
  simp [noCommitAfterFail, he]

/-- Claim C4: if any per-piece commit fails, the call returns `NULL`,
nothing is submitted to the registry, no commit is attempted after the
failed one, and every piece that did commit is released through the
backend by its recorded address and size. -/
theorem commitFailureRollback (env : SiloEnv) (spec : List SSiloMemorySpec) (pastEnd : Nat)
    (h : (siloMultinodeArrayAlloc env spec pastEnd).events.any SiloEvent.isFailedCommit
      = true) :
    (siloMultinodeArrayAlloc env spec pastEnd).ret = none
    ∧ (∀ e ∈ (siloMultinodeArrayAlloc env spec pastEnd).events, e.isSubmitEvent = false)
    ∧ noCommitAfterFail (siloMultinodeArrayAlloc env spec pastEnd).events = true
    ∧ ∀ a s n x : Nat,
        SiloEvent.alloc (some a) s n true (some x)
          ∈ (siloMultinodeArrayAlloc env spec pastEnd).events →
        SiloEvent.free a s ∈ (siloMultinodeArrayAlloc env spec pastEnd).events := by
  obtain ⟨e0, he0, hef0⟩ := List.any_eq_true.mp h
  cases hok : (validateLoop env spec [] 0 0).ok with
  | false =>
    exfalso
    simp [siloMultinodeArrayAlloc, hok] at he0
  | true =>
    by_cases hta : (validateLoop env spec [] 0 0).totalActualBytes = 0
    · exfalso
      simp [siloMultinodeArrayAlloc, hok, hta] at he0
    · cases hpr : siloWindowsMemoryAllocAtNUMA env
          (padLoop env.allocationUnitSize (validateLoop env spec [] 0 0).totalRequestedBytes
            (validateLoop env spec [] 0 0).totalActualBytes).1 0 none false with
      | none =>
        exfalso
        simp [siloMultinodeArrayAlloc, hok, hta, hpr] at he0
        subst he0
        simp [SiloEvent.isFailedCommit] at hef0
      | some base =>
        cases hc : (commitLoop env base (validateLoop env spec [] 0 0).arr).ok with
        | true =>
          exfalso
          simp [siloMultinodeArrayAlloc, hok, hta, hpr, hc] at he0
          rcases he0 with rfl | rfl | hcl | rfl
          · simp [SiloEvent.isFailedCommit] at hef0
          · simp [SiloEvent.isFailedCommit] at hef0
          · rw [commitLoop_ok_no_failed env _ base hc e0 hcl] at hef0
            exact absurd hef0 (by simp)
          · simp [SiloEvent.isFailedCommit] at hef0
        | false =>
          have hev : (siloMultinodeArrayAlloc env spec pastEnd).events =
              SiloEvent.alloc none
                  (padLoop env.allocationUnitSize
                    (validateLoop env spec [] 0 0).totalRequestedBytes
                    (validateLoop env spec [] 0 0).totalActualBytes).1 0 false (some base)
                :: SiloEvent.free base
                  (padLoop env.allocationUnitSize
                    (validateLoop env spec [] 0 0).totalRequestedBytes
                    (validateLoop env spec [] 0 0).totalActualBytes).1
                :: ((commitLoop env base (validateLoop env spec [] 0 0).arr).events
                  ++ (commitLoop env base (validateLoop env spec [] 0 0).arr).specs.map
                      (fun a => SiloEvent.free a.ptr a.size)) := by
            simp [siloMultinodeArrayAlloc, hok, hta, hpr, hc]
          refine ⟨by simp [siloMultinodeArrayAlloc, hok, hta, hpr, hc], ?_, ?_, ?_⟩
          · intro e he
            rw [hev] at he
            rcases List.mem_cons.mp he with rfl | he2
            · rfl
            · rcases List.mem_cons.mp he2 with rfl | he3
              · rfl
              · rcases List.mem_append.mp he3 with hcl | hfr
                · exact (commitLoop_events_alloc env _ base e hcl).1
                · rcases List.mem_map.mp hfr with ⟨a, _, rfl⟩
                  rfl
          · obtain ⟨pre, fe, hclev, hpre, hfe⟩ := commitLoop_fail_structure env _ base hc
            have hev2 : (siloMultinodeArrayAlloc env spec pastEnd).events =
                (SiloEvent.alloc none
                    (padLoop env.allocationUnitSize
                      (validateLoop env spec [] 0 0).totalRequestedBytes
                      (validateLoop env spec [] 0 0).totalActualBytes).1 0 false (some base)
                  :: SiloEvent.free base
                    (padLoop env.allocationUnitSize
                      (validateLoop env spec [] 0 0).totalRequestedBytes
                      (validateLoop env spec [] 0 0).totalActualBytes).1
                  :: pre)
                ++ fe :: (commitLoop env base (validateLoop env spec [] 0 0).arr).specs.map
                    (fun a => SiloEvent.free a.ptr a.size) := by
              rw [hev, hclev]
              simp
            rw [hev2]
            refine noCommitAfterFail_sandwich _ fe _ ?_ ?_
            · intro e he
              rcases List.mem_cons.mp he with rfl | he2
              · rfl
              · rcases List.mem_cons.mp he2 with rfl | he3
                · rfl
                · exact hpre e he3
            · intro e he
              rcases List.mem_map.mp he with ⟨a, _, rfl⟩
              rfl
          · intro a s n x hmem
            rw [hev] at hmem ⊢
            rcases List.mem_cons.mp hmem with h1 | hmem2
            · exact absurd h1 (by simp)
            · rcases List.mem_cons.mp hmem2 with h2 | hmem3
              · exact absurd h2 (by simp)
              · rcases List.mem_append.mp hmem3 with hcl | hfr
                · have hsp := commitLoop_event_mem_specs env _ base a s n x hcl
                  refine List.mem_cons.mpr (Or.inr (List.mem_cons.mpr (Or.inr ?_)))
                  exact List.mem_append.mpr (Or.inr (List.mem_map.mpr ⟨⟨a, s⟩, hsp, rfl⟩))
                · rcases List.mem_map.mp hfr with ⟨pc, _, heq⟩
                  exact absurd heq (by simp)

/-- Witness for C4: the second piece's commit fails, the first piece is
rolled back. -/
theorem commitFailureRollback_witness :
    (siloMultinodeArrayAlloc secondCommitFailsEnv scenarioSpec 0).events.any
        SiloEvent.isFailedCommit = true
    ∧ ((siloMultinodeArrayAlloc secondCommitFailsEnv scenarioSpec 0).ret = none
      ∧ (∀ e ∈ (siloMultinodeArrayAlloc secondCommitFailsEnv scenarioSpec 0).events,
          e.isSubmitEvent = false)
      ∧ noCommitAfterFail (siloMultinodeArrayAlloc secondCommitFailsEnv scenarioSpec 0).events
          = true
      ∧ ∀ a s n x : Nat,
          SiloEvent.alloc (some a) s n true (some x)
            ∈ (siloMultinodeArrayAlloc secondCommitFailsEnv scenarioSpec 0).events →
          SiloEvent.free a s
            ∈ (siloMultinodeArrayAlloc secondCommitFailsEnv scenarioSpec 0).events) :=
  ⟨by decide, commitFailureRollback secondCommitFailsEnv scenarioSpec 0 (by decide)⟩

/-- Claim C1, evaluated at the failing input (the spec §8 scenario,
every backend call succeeding): the call succeeds, but the committed and
recorded pieces total 12288 bytes, strictly less than the 15000 bytes
originally requested — the coverage invariant `sum(piece.size) >=
sum(original requested sizes)` fails, because line 129 adds the padding
to `spec[count].size` (one past the end of the array) instead of the
last piece `spec[count-1].size`. -/
theorem coverageShortfallAtScenario :
    (siloMultinodeArrayAlloc goodEnv scenarioSpec 0).ret = some 65536
    ∧ (siloMultinodeArrayAlloc goodEnv scenarioSpec 0).events.getLast?
        = some (SiloEvent.submit 2 [⟨65536, 8192⟩, ⟨73728, 4096⟩])
    ∧ (([⟨65536, 8192⟩, ⟨73728, 4096⟩] : List SSiloAllocationSpec).map
        SSiloAllocationSpec.size).sum = 12288
    ∧ (scenarioSpec.map SSiloMemorySpec.size).sum = 15000
    ∧ 12288 < 15000 := by
  decide

/-- Claim C2, evaluated: the rounding phase does produce sizes
`[8192, 4096]` with total 12288 < 15000, but the padding never reaches
the last piece (it goes to the out-of-bounds slot), so the sizes written
back to the caller and committed are `[8192, 4096]`, not the claimed
`[8192, 8192]`. -/
theorem scenarioFinalSizesNotPadded :
    (validateLoop goodEnv scenarioSpec [] 0 0).arr.map SSiloMemorySpec.size = [8192, 4096]
    ∧ (validateLoop goodEnv scenarioSpec [] 0 0).totalActualBytes = 12288
    ∧ (validateLoop goodEnv scenarioSpec [] 0 0).totalRequestedBytes = 15000
    ∧ (siloMultinodeArrayAlloc goodEnv scenarioSpec 0).finalSpec.map SSiloMemorySpec.size
        = [8192, 4096]
    ∧ (siloMultinodeArrayAlloc goodEnv scenarioSpec 0).events.getLast?
        = some (SiloEvent.submit 2 [⟨65536, 8192⟩, ⟨73728, 4096⟩])
    ∧ (siloMultinodeArrayAlloc goodEnv scenarioSpec 0).finalSpec.map SSiloMemorySpec.size
        ≠ [8192, 8192] := by
  decide

/-- Claim C9, evaluated at the scenario: the padding loop performs one
write to `spec[count]`, the slot one past the end of the caller's
two-element array, read-modify-writing whatever memory lies there (here
modelled with initial content 7, ending at 7 + 4096). -/
theorem paddingWritesPastEndOfArray :
    (siloMultinodeArrayAlloc goodEnv scenarioSpec 7).writesPastEnd = 1
    ∧ (siloMultinodeArrayAlloc goodEnv scenarioSpec 7).pastEnd = 7 + 4096 := by
  decide

end Silo
